import Mathlib

/-! The unauthenticated static-file handler `handleNoAuth`.

A shallow embedding of `handler_noauth.go` and of the standard-library
primitives it calls, followed by theorems about the handler.

Go strings are byte strings.  They are modelled as lists of characters; every
primitive used by the handler inspects ASCII bytes only (`/`, `&`, `<`, ...),
and in UTF-8 such a byte never occurs inside a multi-byte sequence, so the
character-level and the byte-level readings agree on UTF-8 text.
Paths use the Unix separator, as the handler itself does when it builds
`filePath`.
-/

namespace FileServer

/-- A Go `string`. -/
abbrev GoString := List Char

/-! ## Standard-library primitives -/

/-- The apostrophe, byte 39. -/
def apostrophe : Char := Char.ofNat 39

/-- The double quote, byte 34. -/
def dquote : Char := Char.ofNat 34

/-- The backslash, byte 92. -/
def backslash : Char := Char.ofNat 92

/-- The bytes `html.EscapeString` rewrites. -/
def htmlSpecial (c : Char) : Bool :=
  c == '&' || c == '<' || c == '>' || c == apostrophe || c == dquote

/-- Replacement table of `html.EscapeString`:
`&` to `&amp;`, apostrophe to `&#39;`, `<` to `&lt;`, `>` to `&gt;`,
double quote to `&#34;`; every other byte is kept. -/
def htmlEscaper (c : Char) : GoString :=
  if c = '&' then "&amp;".toList
  else if c = apostrophe then "&#39;".toList
  else if c = '<' then "&lt;".toList
  else if c = '>' then "&gt;".toList
  else if c = dquote then "&#34;".toList
  else [c]

/-- Go `html.EscapeString`: the replacer applied to each byte in turn. -/
def EscapeString : GoString → GoString
  | [] => []
  | c :: cs => htmlEscaper c ++ EscapeString cs

/-- Go `strings.HasPrefix`. -/
def HasPrefix (s pre : GoString) : Bool :=
  s.length ≥ pre.length && s.take pre.length == pre

/-- Go `strings.TrimPrefix`: `s` without the leading `pre` when `s` starts
with it, `s` unchanged otherwise. -/
def TrimPrefix (s pre : GoString) : GoString :=
  if HasPrefix s pre then s.drop pre.length else s

/-- Go `os.IsPathSeparator` on Unix. -/
def IsPathSeparator (c : Char) : Bool := c == '/'

/-- Go `filepath.Base` on Unix: `.` for the empty path; otherwise trailing
separators are stripped, the part after the last remaining separator is kept,
and a path made of separators only yields `/`. -/
def Base (path : GoString) : GoString :=
  if path = [] then ".".toList
  else
    let stripped := (path.reverse.dropWhile IsPathSeparator).reverse
    let last := (stripped.reverse.takeWhile (fun c => !IsPathSeparator c)).reverse
    if last = [] then "/".toList else last

/-- Text `fmt.Sprintf` appends for the operands no verb consumed:
`%!(EXTRA string=a, string=b)`. -/
def extraOperands : List GoString → GoString
  | [] => []
  | a :: rest =>
    "%!(EXTRA string=".toList ++ a ++ (rest.flatMap fun b => ", string=".toList ++ b) ++
      ")".toList

/-- Go `fmt.Sprintf` on string operands, for formats without flags, width,
precision or argument index.  `%s` and `%v` print the next operand, `%%`
prints a percent sign, another verb prints `%!c(string=operand)`, a verb
without operand prints `%!c(MISSING)`, a percent sign at the end prints
`%!(NOVERB)`, and operands left over are reported at the end.  The verbs
`%q`, `%x` and `%X`, which also accept a string, are not modelled. -/
def Sprintf : GoString → List GoString → GoString
  | [], args => extraOperands args
  | ['%'], args => "%!(NOVERB)".toList ++ extraOperands args
  | '%' :: '%' :: rest, args => '%' :: Sprintf rest args
  | '%' :: v :: rest, a :: args =>
    (if v = 's' ∨ v = 'v' then a else "%!".toList ++ [v] ++ "(string=".toList ++ a ++ ")".toList)
      ++ Sprintf rest args
  | '%' :: v :: rest, [] => "%!".toList ++ [v] ++ "(MISSING)".toList ++ Sprintf rest []
  | c :: rest, args => c :: Sprintf rest args

/-- Go `http.StatusText`: the reason phrase of a status code, empty for an
unknown code. -/
def StatusText (code : Nat) : GoString :=
  String.toList <| match code with
  | 100 => "Continue"
  | 101 => "Switching Protocols"
  | 102 => "Processing"
  | 103 => "Early Hints"
  | 200 => "OK"
  | 201 => "Created"
  | 202 => "Accepted"
  | 203 => "Non-Authoritative Information"
  | 204 => "No Content"
  | 205 => "Reset Content"
  | 206 => "Partial Content"
  | 207 => "Multi-Status"
  | 208 => "Already Reported"
  | 226 => "IM Used"
  | 300 => "Multiple Choices"
  | 301 => "Moved Permanently"
  | 302 => "Found"
  | 303 => "See Other"
  | 304 => "Not Modified"
  | 305 => "Use Proxy"
  | 307 => "Temporary Redirect"
  | 308 => "Permanent Redirect"
  | 400 => "Bad Request"
  | 401 => "Unauthorized"
  | 402 => "Payment Required"
  | 403 => "Forbidden"
  | 404 => "Not Found"
  | 405 => "Method Not Allowed"
  | 406 => "Not Acceptable"
  | 407 => "Proxy Authentication Required"
  | 408 => "Request Timeout"
  | 409 => "Conflict"
  | 410 => "Gone"
  | 411 => "Length Required"
  | 412 => "Precondition Failed"
  | 413 => "Request Entity Too Large"
  | 414 => "Request URI Too Long"
  | 415 => "Unsupported Media Type"
  | 416 => "Requested Range Not Satisfiable"
  | 417 => "Expectation Failed"
  | 418 => "I'm a teapot"
  | 421 => "Misdirected Request"
  | 422 => "Unprocessable Entity"
  | 423 => "Locked"
  | 424 => "Failed Dependency"
  | 425 => "Too Early"
  | 426 => "Upgrade Required"
  | 428 => "Precondition Required"
  | 429 => "Too Many Requests"
  | 431 => "Request Header Fields Too Large"
  | 451 => "Unavailable For Legal Reasons"
  | 500 => "Internal Server Error"
  | 501 => "Not Implemented"
  | 502 => "Bad Gateway"
  | 503 => "Service Unavailable"
  | 504 => "Gateway Timeout"
  | 505 => "HTTP Version Not Supported"
  | 506 => "Variant Also Negotiates"
  | 507 => "Insufficient Storage"
  | 508 => "Loop Detected"
  | 510 => "Not Extended"
  | 511 => "Network Authentication Required"
  | _ => ""

/-! ### encoding/json -/

/-- Lower-case hexadecimal digit, the table `hex` of encoding/json. -/
def hexDigit (n : Nat) : Char := "0123456789abcdef".toList.getD n '0'

/-- Table `htmlSafeSet` of encoding/json: the ASCII bytes a string may hold
unescaped when HTML escaping is on (the encoder's default). -/
def htmlSafe (c : Char) : Bool :=
  decide (32 ≤ c.toNat) && c != dquote && c != backslash &&
    c != '&' && c != '<' && c != '>'

/-- Escape of one character inside a JSON string, as encoding/json writes it
with HTML escaping on. -/
def jsonEscapeChar (c : Char) : GoString :=
  if c.toNat < 128 then
    if htmlSafe c then [c]
    else if c = backslash ∨ c = dquote then [backslash, c]
    else if c.toNat = 8 then [backslash, 'b']
    else if c.toNat = 12 then [backslash, 'f']
    else if c.toNat = 10 then [backslash, 'n']
    else if c.toNat = 13 then [backslash, 'r']
    else if c.toNat = 9 then [backslash, 't']
    else [backslash, 'u', '0', '0', hexDigit (c.toNat / 16), hexDigit (c.toNat % 16)]
  else if c.toNat = 8232 then backslash :: "u2028".toList
  else if c.toNat = 8233 then backslash :: "u2029".toList
  else [c]

/-- JSON encoding of a Go string: the escaped characters between double
quotes. -/
def jsonString (s : GoString) : GoString :=
  [dquote] ++ s.flatMap jsonEscapeChar ++ [dquote]

/-- Modelled from the spec: the declaration of the type `ErrorMessage` is not
in the handler's file.  The spec describes it as a structure with the fields
`Code` (string) and `Message` (string), serialized as JSON under these two
names, in this order. -/
structure ErrorMessage where
  /-- Status code as text. -/
  Code : GoString
  /-- Reason phrase. -/
  Message : GoString

/-- Go `json.Marshal` of an `ErrorMessage`: an object with the members
`Code` and `Message`. -/
def Marshal (v : ErrorMessage) : GoString :=
  "\x7b".toList ++ jsonString "Code".toList ++ ":".toList ++ jsonString v.Code ++
    ",".toList ++ jsonString "Message".toList ++ ":".toList ++ jsonString v.Message ++
    "\x7d".toList

/-- Bytes that `json.Encoder.Encode` writes to its stream: the JSON encoding
of the value followed by a newline character. -/
def Encode (v : ErrorMessage) : GoString :=
  Marshal v ++ ['\n']

/-! ### net/http response writer -/

/-- Go `http.Header`, a map from canonical keys to value lists. -/
abbrev Header := GoString → Option (List GoString)

/-- Header map with no entry. -/
def Header.empty : Header := fun _ => none

/-- Bytes allowed in a header field name (`validHeaderFieldByte`): the
token characters of RFC 7230. -/
def validHeaderFieldByte (c : Char) : Bool :=
  c.isAlphanum || "!#$%&*+-.^_|~".toList.contains c || c == apostrophe ||
    c.toNat == 96

/-- Letter-case pass of `canonicalMIMEHeaderKey`: upper case at the start
and after each hyphen, lower case elsewhere. -/
def canonicalCase : Bool → GoString → GoString
  | _, [] => []
  | upper, c :: cs =>
    (if upper then c.toUpper else c.toLower) :: canonicalCase (c == '-') cs

/-- Go `textproto.CanonicalMIMEHeaderKey`: a key holding a byte that is not
allowed in a field name is returned unchanged. -/
def CanonicalMIMEHeaderKey (s : GoString) : GoString :=
  if s.all validHeaderFieldByte then canonicalCase true s else s

/-- Go `Header.Set`: the entry of the canonical key becomes the single
value, replacing what was there. -/
def Header.Set (h : Header) (key value : GoString) : Header :=
  fun k => if k = CanonicalMIMEHeaderKey key then some [value] else h k

/-- Go `Header.Get`: first value of the canonical key, empty when absent. -/
def Header.Get (h : Header) (key : GoString) : GoString :=
  match h (CanonicalMIMEHeaderKey key) with
  | some (v :: _) => v
  | _ => []

/-- State of an `http.ResponseWriter`: the header map, the status code once
the header has been written, and the body bytes written so far. -/
structure ResponseWriter where
  /-- The map returned by `w.Header()`. -/
  header : Header
  /-- Status code sent, `none` while the header is not yet written. -/
  status : Option Nat
  /-- Body bytes written. -/
  body : GoString

/-- Response writer as the server hands it to a handler. -/
def ResponseWriter.fresh : ResponseWriter := ⟨Header.empty, none, []⟩

/-- Go `w.WriteHeader(code)`: the first call fixes the status code, later
calls are ignored. -/
def ResponseWriter.WriteHeader (w : ResponseWriter) (code : Nat) : ResponseWriter :=
  match w.status with
  | none => ⟨w.header, some code, w.body⟩
  | some _ => w

/-- Go `w.Write(data)`: writes the header with status 200 when it is not
yet written, then appends the data to the body. -/
def ResponseWriter.Write (w : ResponseWriter) (data : GoString) : ResponseWriter :=
  let w1 := w.WriteHeader 200
  ⟨w1.header, w1.status, w1.body ++ data⟩

/-! ### os -/

/-- Kinds of error `os.Stat` reports. -/
inductive StatError where
  | notExist
  | permission
  | other (errno : Nat)

/-- The part of `os.FileInfo` a file system answers with. -/
structure FileInfo where
  /-- Length in bytes. -/
  size : Nat
  /-- Whether the entry is a directory. -/
  isDir : Bool

/-- A file system, seen through `os.Stat`. -/
abbrev FileSystem := GoString → Except StatError FileInfo

/-! ## The program -/

/-- The section `Handler` of the configuration. -/
structure HandlerConfig where
  /-- Directory the files are served from. -/
  RootDirectory : GoString

/-- The global `cfg`, declared outside the handler's file; only
`cfg.Handler.RootDirectory` is read. -/
structure Config where
  /-- Handler settings. -/
  Handler : HandlerConfig

/-- The `URL` of a request. -/
structure URL where
  /-- The decoded path `r.URL.Path`. -/
  Path : GoString

/-- An `http.Request`; the handler reads `r.URL.Path` only. -/
structure Request where
  /-- The request URL. -/
  URL : URL

/-! ### net/http file serving -/

/-- Go `Header.Del`: the entry of the canonical key is removed. -/
def Header.Del (h : Header) (key : GoString) : Header :=
  fun k => if k = CanonicalMIMEHeaderKey key then none else h k

/-- Go `http.Error`: drops `Content-Length`, sets `Content-Type` to plain
text and `X-Content-Type-Options` to `nosniff`, writes the status code and
prints the message followed by a newline. -/
def Error (w : ResponseWriter) (msg : GoString) (code : Nat) : ResponseWriter :=
  let h := ((w.header.Del "Content-Length".toList).Set "Content-Type".toList
    "text/plain; charset=utf-8".toList).Set "X-Content-Type-Options".toList "nosniff".toList
  (ResponseWriter.WriteHeader ⟨h, w.status, w.body⟩ code).Write (msg ++ "\n".toList)

/-- The `serveError` of net/http (Go 1.23): an error answer of the file
server first drops the headers meant for a successful answer, then is sent
by `http.Error`.  Earlier releases call `http.Error` directly. -/
def serveError (w : ResponseWriter) (text : GoString) (code : Nat) : ResponseWriter :=
  let h := (((w.header.Del "Cache-Control".toList).Del "Content-Encoding".toList).Del
    "Etag".toList).Del "Last-Modified".toList
  Error ⟨h, w.status, w.body⟩ text code

/-- Go `strings.Contains`. -/
def Contains : GoString → GoString → Bool
  | [], sub => HasPrefix [] sub
  | c :: cs, sub => HasPrefix (c :: cs) sub || Contains cs sub

/-- Loop of `strings.FieldsFunc`; `cur` is the field being read, last byte
first. -/
def fieldsLoop (f : Char → Bool) : GoString → GoString → List GoString
  | [], cur => if cur = [] then [] else [cur.reverse]
  | c :: cs, cur =>
    if f c then
      if cur = [] then fieldsLoop f cs [] else cur.reverse :: fieldsLoop f cs []
    else fieldsLoop f cs (c :: cur)

/-- Go `strings.FieldsFunc`: the maximal runs of bytes that `f` rejects. -/
def FieldsFunc (s : GoString) (f : Char → Bool) : List GoString :=
  fieldsLoop f s []

/-- The `isSlashRune` of net/http: slash or backslash. -/
def isSlashRune (c : Char) : Bool := c == '/' || c == backslash

/-- The `containsDotDot` of net/http: whether some element of the path,
split at slashes and backslashes, is `..`. -/
def containsDotDot (v : GoString) : Bool :=
  if !Contains v "..".toList then false
  else (FieldsFunc v isSlashRune).any fun ent => ent == "..".toList

/-- Go `filepath.Split` on Unix: the path up to and including its last
separator, and what follows it. -/
def Split (path : GoString) : GoString × GoString :=
  let file := (path.reverse.takeWhile (fun c => !IsPathSeparator c)).reverse
  (path.take (path.length - file.length), file)

/-- What a call of `http.ServeFile` comes to. -/
inductive ServeResult where
  /-- The request was refused; the response writer holds the complete
  error answer and no file was opened. -/
  | rejected (w : ResponseWriter)
  /-- The internal `serveFile(w, r, Dir(dir), file, false)` was entered: it
  opens the file and writes status, headers and body from the file's
  metadata and content and from the request headers, none of which the
  handler supplies. -/
  | transfer (dir file : GoString)

/-- Go `http.ServeFile(w, r, name)`: a request whose `r.URL.Path` has a `..`
element is refused with status 400 and the text `invalid URL path`;
otherwise the name is split and the file transfer is entered. -/
def ServeFile (w : ResponseWriter) (r : Request) (name : GoString) : ServeResult :=
  if containsDotDot r.URL.Path then
    ServeResult.rejected (serveError w "invalid URL path".toList 400)
  else ServeResult.transfer (Split name).1 (Split name).2

/-- Everything the handler acts on: the response writer and the record of
its calls to `os.Stat`, `log.Println` and `http.ServeFile`. -/
structure World where
  /-- The response writer `w` as the handler's own statements leave it. -/
  w : ResponseWriter
  /-- Paths passed to `os.Stat`, oldest first. -/
  statCalls : List GoString
  /-- Messages passed to `log.Println`, oldest first. -/
  logLines : List GoString
  /-- File names passed to `http.ServeFile`, oldest first. -/
  serveCalls : List GoString
  /-- What each call of `http.ServeFile` did with the response writer it was
  handed, oldest first. -/
  serveResults : List ServeResult

/-- The world at the start of a request. -/
def World.initial : World := ⟨ResponseWriter.fresh, [], [], [], []⟩

/-- Effect `w.Header().Set(key, value)`. -/
def World.SetHeader (s : World) (key value : GoString) : World :=
  ⟨⟨s.w.header.Set key value, s.w.status, s.w.body⟩, s.statCalls, s.logLines, s.serveCalls,
    s.serveResults⟩

/-- Effect `w.WriteHeader(code)`. -/
def World.WriteHeader (s : World) (code : Nat) : World :=
  ⟨s.w.WriteHeader code, s.statCalls, s.logLines, s.serveCalls, s.serveResults⟩

/-- Effect `json.NewEncoder(w).Encode(v)`. -/
def World.EncodeJSON (s : World) (v : ErrorMessage) : World :=
  ⟨s.w.Write (Encode v), s.statCalls, s.logLines, s.serveCalls, s.serveResults⟩

/-- Effect `log.Println(msg)`. -/
def World.Println (s : World) (msg : GoString) : World :=
  ⟨s.w, s.statCalls, s.logLines ++ [msg], s.serveCalls, s.serveResults⟩

/-- Effect `os.Stat(name)`: the call is recorded and the file system
answers. -/
def World.Stat (s : World) (fs : FileSystem) (name : GoString) :
    Except StatError FileInfo × World :=
  (fs name, ⟨s.w, s.statCalls ++ [name], s.logLines, s.serveCalls, s.serveResults⟩)

/-- Effect `http.ServeFile(w, r, name)`: the name handed over is recorded,
and so is what the primitive does with the response writer and the
request. -/
def World.ServeFile (s : World) (r : Request) (name : GoString) : World :=
  ⟨s.w, s.statCalls, s.logLines, s.serveCalls ++ [name],
    s.serveResults ++ [FileServer.ServeFile s.w r name]⟩

/-- Local `urlPath` of the handler. -/
def urlPath (r : Request) : GoString := EscapeString r.URL.Path

/-- Local `filename` of the handler. -/
def filename (r : Request) : GoString := TrimPrefix (urlPath r) "/".toList

/-- Local `filePath` of the handler. -/
def filePath (cfg : Config) (r : Request) : GoString :=
  cfg.Handler.RootDirectory ++ "/".toList ++ filename r

/-- The handler `handleNoAuth`. -/
def handleNoAuth (cfg : Config) (fs : FileSystem) (r : Request) (s : World) : World :=
  match s.Stat fs (filePath cfg r) with
  | (Except.error _, s) =>
    let s := s.SetHeader "Content-Type".toList "application/json; charset=utf-8".toList
    let s := s.WriteHeader 404
    let s := s.EncodeJSON ⟨"404".toList, StatusText 404⟩
    let s := s.Println ("NOT FOUND (".toList ++ urlPath r ++ ")".toList)
    s
  | (Except.ok _, s) =>
    let s := s.SetHeader "Content-Disposition".toList
      (Sprintf "attachment; filename='%s'".toList [Base (filePath cfg r)])
    let s := s.SetHeader "Expires".toList "0".toList
    let s := s.SetHeader "Content-Control".toList
      "private, no-transform, no-store, must-revalidate".toList
    s.ServeFile r (filePath cfg r)

/-! ## Pathname resolution

What a path denotes is needed to say that a resolved path lies outside the
root directory.  The file system resolves a path component by component. -/

/-- Components of a path: the pieces between separators. -/
def components : GoString → List GoString
  | [] => [[]]
  | c :: cs =>
    if c = '/' then [] :: components cs
    else
      match components cs with
      | [] => [[c]]
      | seg :: segs => (c :: seg) :: segs

/-- One step of pathname resolution from the directory `dir`: an empty
component and `.` stay, `..` goes to the parent (the root is its own
parent), any other name goes down. -/
def walk (dir : List GoString) (name : GoString) : List GoString :=
  if name = [] ∨ name = ".".toList then dir
  else if name = "..".toList then dir.dropLast
  else dir ++ [name]

/-- Location an absolute path denotes, as the list of names below the file
system root, when no component is a symbolic link. -/
def location (p : GoString) : List GoString :=
  (components p).foldl walk []

/-- Whether the path `p` denotes the directory `root` or something below
it. -/
def within (root p : GoString) : Bool :=
  (location root).isPrefixOf (location p)

/-! ## Sample inputs -/

/-- File system holding nothing. -/
def emptyFS : FileSystem := fun _ => Except.error StatError.notExist

/-- File system in which every path exists. -/
def fullFS : FileSystem := fun _ => Except.ok ⟨0, false⟩

/-- Request for a path. -/
def mkRequest (p : String) : Request := ⟨⟨p.toList⟩⟩

/-- Configuration with a root directory. -/
def mkConfig (root : String) : Config := ⟨⟨root.toList⟩⟩


/-! ## Evaluation lemmas for the primitives -/

theorem canonical_content_type :
    CanonicalMIMEHeaderKey "Content-Type".toList = "Content-Type".toList := by decide

theorem canonical_content_disposition :
    CanonicalMIMEHeaderKey "Content-Disposition".toList = "Content-Disposition".toList := by
  decide

theorem canonical_expires :
    CanonicalMIMEHeaderKey "Expires".toList = "Expires".toList := by decide

theorem canonical_content_control :
    CanonicalMIMEHeaderKey "Content-Control".toList = "Content-Control".toList := by decide

theorem Sprintf_filename (x : GoString) :
    Sprintf "attachment; filename='%s'".toList [x]
      = "attachment; filename='".toList ++ x ++ [apostrophe] := rfl

theorem Encode_not_found :
    Encode ⟨"404".toList, StatusText 404⟩
      = "\x7b\"Code\":\"404\",\"Message\":\"Not Found\"\x7d\n".toList := by decide

/-- The handler on the branch where `os.Stat` fails. -/
theorem handleNoAuth_of_error (cfg : Config) (fs : FileSystem) (r : Request) (s : World)
    (e : StatError) (h : fs (filePath cfg r) = Except.error e) :
    handleNoAuth cfg fs r s =
      ⟨⟨s.w.header.Set "Content-Type".toList "application/json; charset=utf-8".toList,
          some (s.w.status.getD 404),
          s.w.body ++ Encode ⟨"404".toList, StatusText 404⟩⟩,
        s.statCalls ++ [filePath cfg r],
        s.logLines ++ ["NOT FOUND (".toList ++ urlPath r ++ ")".toList],
        s.serveCalls,
        s.serveResults⟩ := by
  cases hst : s.w.status <;>
    simp [handleNoAuth, World.Stat, h, World.SetHeader, World.WriteHeader, World.EncodeJSON,
      World.Println, ResponseWriter.WriteHeader, ResponseWriter.Write, hst]

/-- The handler on the branch where `os.Stat` succeeds. -/
theorem handleNoAuth_of_ok (cfg : Config) (fs : FileSystem) (r : Request) (s : World)
    (i : FileInfo) (h : fs (filePath cfg r) = Except.ok i) :
    handleNoAuth cfg fs r s =
      ⟨⟨((s.w.header.Set "Content-Disposition".toList
              (Sprintf "attachment; filename='%s'".toList [Base (filePath cfg r)])).Set
              "Expires".toList "0".toList).Set "Content-Control".toList
              "private, no-transform, no-store, must-revalidate".toList,
          s.w.status, s.w.body⟩,
        s.statCalls ++ [filePath cfg r],
        s.logLines,
        s.serveCalls ++ [filePath cfg r],
        s.serveResults ++ [ServeFile
          ⟨((s.w.header.Set "Content-Disposition".toList
              (Sprintf "attachment; filename='%s'".toList [Base (filePath cfg r)])).Set
              "Expires".toList "0".toList).Set "Content-Control".toList
              "private, no-transform, no-store, must-revalidate".toList,
            s.w.status, s.w.body⟩ r (filePath cfg r)]⟩ := by
  simp [handleNoAuth, World.Stat, h, World.SetHeader, World.ServeFile]

/-- An error answer of the file server appends its text and a newline to the
body. -/
theorem serveError_body (w : ResponseWriter) (text : GoString) (code : Nat) :
    (serveError w text code).body = w.body ++ text ++ "\n".toList := by
  cases hst : w.status <;>
    simp [serveError, Error, ResponseWriter.Write, ResponseWriter.WriteHeader, hst]

/-- An error answer of the file server fixes the status code of a response
not yet written. -/
theorem serveError_status (w : ResponseWriter) (text : GoString) (code : Nat)
    (h : w.status = none) : (serveError w text code).status = some code := by
  simp [serveError, Error, ResponseWriter.Write, ResponseWriter.WriteHeader, h]


/-! ## Lemmas on the string primitives -/

theorem EscapeString_append (a b : GoString) :
    EscapeString (a ++ b) = EscapeString a ++ EscapeString b := by
  induction a with
  | nil => rfl
  | cons c cs ih => simp [EscapeString, ih]

theorem htmlEscaper_of_not_special (c : Char) (h : htmlSpecial c = false) :
    htmlEscaper c = [c] := by
  simp only [htmlSpecial, Bool.or_eq_false_iff, beq_eq_false_iff_ne, ne_eq] at h
  obtain ⟨⟨⟨⟨h1, h2⟩, h3⟩, h4⟩, h5⟩ := h
  simp [htmlEscaper, h1, h2, h3, h4, h5]

theorem htmlEscaper_length_of_special (c : Char) (h : htmlSpecial c = true) :
    1 < (htmlEscaper c).length := by
  unfold htmlEscaper
  split_ifs with h1 h2 h3 h4 h5
  · decide
  · decide
  · decide
  · decide
  · decide
  · simp [htmlSpecial, h1, h2, h3, h4, h5] at h

theorem htmlEscaper_length_pos (c : Char) : 1 ≤ (htmlEscaper c).length := by
  unfold htmlEscaper
  split_ifs
  · decide
  · decide
  · decide
  · decide
  · decide
  · simp

/-- No byte the escaper writes is a quote or an angle bracket, and it writes
a separator only for a separator. -/
theorem mem_htmlEscaper (c x : Char) (h : x ∈ htmlEscaper c) :
    x ≠ apostrophe ∧ x ≠ dquote ∧ x ≠ '<' ∧ x ≠ '>' ∧ (x = '/' → c = '/') := by
  have key : ∀ l : GoString,
      (∀ y ∈ l, y ≠ apostrophe ∧ y ≠ dquote ∧ y ≠ '<' ∧ y ≠ '>' ∧ y ≠ '/') → x ∈ l →
      x ≠ apostrophe ∧ x ≠ dquote ∧ x ≠ '<' ∧ x ≠ '>' ∧ (x = '/' → c = '/') := by
    intro l hl hx
    obtain ⟨a1, a2, a3, a4, a5⟩ := hl x hx
    exact ⟨a1, a2, a3, a4, fun hs => absurd hs a5⟩
  unfold htmlEscaper at h
  split_ifs at h with h1 h2 h3 h4 h5
  · exact key _ (by decide) h
  · exact key _ (by decide) h
  · exact key _ (by decide) h
  · exact key _ (by decide) h
  · exact key _ (by decide) h
  · have hx : x = c := by simpa using h
    subst hx
    exact ⟨h2, h5, h3, h4, fun hc => hc⟩

theorem mem_EscapeString (s : GoString) (x : Char) (h : x ∈ EscapeString s) :
    ∃ c ∈ s, x ∈ htmlEscaper c := by
  induction s with
  | nil => simp [EscapeString] at h
  | cons c cs ih =>
    simp only [EscapeString, List.mem_append] at h
    rcases h with h | h
    · exact ⟨c, List.mem_cons_self _ _, h⟩
    · obtain ⟨d, hd, hx⟩ := ih h
      exact ⟨d, List.mem_cons_of_mem _ hd, hx⟩

theorem EscapeString_of_not_special (s : GoString) (h : ∀ c ∈ s, htmlSpecial c = false) :
    EscapeString s = s := by
  induction s with
  | nil => rfl
  | cons c cs ih =>
    have hc := htmlEscaper_of_not_special c (h c (List.mem_cons_self _ _))
    have hcs := ih (fun d hd => h d (List.mem_cons_of_mem _ hd))
    simp [EscapeString, hc, hcs]

theorem EscapeString_length_le (s : GoString) : s.length ≤ (EscapeString s).length := by
  induction s with
  | nil => simp [EscapeString]
  | cons c cs ih =>
    have := htmlEscaper_length_pos c
    simp only [EscapeString, List.length_append, List.length_cons]
    omega

theorem EscapeString_length_lt (s : GoString) (h : ∃ c ∈ s, htmlSpecial c = true) :
    s.length < (EscapeString s).length := by
  induction s with
  | nil => simp at h
  | cons c cs ih =>
    simp only [EscapeString, List.length_append, List.length_cons]
    obtain ⟨d, hd, hsp⟩ := h
    rcases List.mem_cons.mp hd with rfl | hd
    · have := htmlEscaper_length_of_special d hsp
      have := EscapeString_length_le cs
      omega
    · have := ih ⟨d, hd, hsp⟩
      have := htmlEscaper_length_pos c
      omega

/-- The first byte the escaper writes is a separator only for a separator. -/
theorem htmlEscaper_head (c : Char) :
    ∃ x rest, htmlEscaper c = x :: rest ∧ (x = '/' ↔ c = '/') := by
  unfold htmlEscaper
  split_ifs with h1 h2 h3 h4 h5
  · exact ⟨'&', "amp;".toList, rfl, by subst h1; decide⟩
  · exact ⟨'&', "#39;".toList, rfl, by subst h2; decide⟩
  · exact ⟨'&', "lt;".toList, rfl, by subst h3; decide⟩
  · exact ⟨'&', "gt;".toList, rfl, by subst h4; decide⟩
  · exact ⟨'&', "#34;".toList, rfl, by subst h5; decide⟩
  · exact ⟨c, [], rfl, Iff.rfl⟩

theorem EscapeString_slash_cons (s : GoString) :
    EscapeString ('/' :: s) = '/' :: EscapeString s := by
  have h : htmlEscaper '/' = ['/'] := by decide
  simp [EscapeString, h]

theorem TrimPrefix_slash_cons (s : GoString) : TrimPrefix ('/' :: s) "/".toList = s := by
  simp [TrimPrefix, HasPrefix]

theorem TrimPrefix_slash_nil : TrimPrefix [] "/".toList = [] := by
  simp [TrimPrefix, HasPrefix]

theorem TrimPrefix_slash_of_ne (c : Char) (s : GoString) (h : c ≠ '/') :
    TrimPrefix (c :: s) "/".toList = c :: s := by
  simp [TrimPrefix, HasPrefix, h]

/-- The filename when the request path starts with a separator. -/
theorem filename_slash_cons (u : URL) (s : GoString) (h : u.Path = '/' :: s) :
    filename ⟨u⟩ = EscapeString s := by
  unfold filename urlPath
  rw [show (Request.mk u).URL.Path = '/' :: s from h, EscapeString_slash_cons,
    TrimPrefix_slash_cons]

/-- The filename when the request path does not start with a separator. -/
theorem filename_of_not_slash (r : Request) (h : r.URL.Path.head? ≠ some '/') :
    filename r = EscapeString r.URL.Path := by
  unfold filename urlPath
  cases hp : r.URL.Path with
  | nil => exact TrimPrefix_slash_nil
  | cons c cs =>
    have hc : c ≠ '/' := by simpa [hp] using h
    obtain ⟨x, rest, hx, hiff⟩ := htmlEscaper_head c
    have hx2 : x ≠ '/' := fun hxs => hc (hiff.mp hxs)
    simp only [EscapeString, hx, List.cons_append]
    exact TrimPrefix_slash_of_ne x _ hx2


/-! ## Lemmas on `filepath.Base` -/

theorem dropWhile_append_of_exists {p : Char → Bool} (g rest : GoString)
    (h : ∃ c ∈ g, p c = false) :
    (g ++ rest).dropWhile p = g.dropWhile p ++ rest := by
  induction g with
  | nil => simp at h
  | cons a as ih =>
    by_cases ha : p a = true
    · obtain ⟨c, hc, hpc⟩ := h
      rcases List.mem_cons.mp hc with rfl | hc
      · simp [ha] at hpc
      · simp [List.dropWhile_cons, ha, ih ⟨c, hc, hpc⟩]
    · simp [List.dropWhile_cons, ha]

theorem takeWhile_append_stop {p : Char → Bool} (g rest : GoString) (x : Char)
    (hx : p x = false) :
    (g ++ x :: rest).takeWhile p = g.takeWhile p := by
  induction g with
  | nil => simp [List.takeWhile_cons, hx]
  | cons a as ih =>
    by_cases ha : p a = true
    · simp [List.takeWhile_cons, ha, ih]
    · simp [List.takeWhile_cons, ha]

theorem mem_of_mem_takeWhile {p : Char → Bool} (l : GoString) (x : Char)
    (h : x ∈ l.takeWhile p) : x ∈ l ∧ p x = true := by
  induction l with
  | nil => simp at h
  | cons a as ih =>
    by_cases ha : p a = true
    · simp only [List.takeWhile_cons, ha, if_true, List.mem_cons] at h
      rcases h with rfl | h
      · exact ⟨List.mem_cons_self _ _, ha⟩
      · exact ⟨List.mem_cons_of_mem _ (ih h).1, (ih h).2⟩
    · simp [List.takeWhile_cons, ha] at h

theorem mem_of_mem_dropWhile {p : Char → Bool} (l : GoString) (x : Char)
    (h : x ∈ l.dropWhile p) : x ∈ l := by
  induction l with
  | nil => simp at h
  | cons a as ih =>
    by_cases ha : p a = true
    · simp only [List.dropWhile_cons, ha, if_true] at h
      exact List.mem_cons_of_mem _ (ih h)
    · simpa [List.dropWhile_cons, ha] using h

theorem takeWhile_not_dropWhile_ne_nil {p : Char → Bool} (g : GoString)
    (h : ∃ c ∈ g, p c = false) :
    (g.dropWhile p).takeWhile (fun c => !p c) ≠ [] := by
  induction g with
  | nil => simp at h
  | cons a as ih =>
    by_cases ha : p a = true
    · obtain ⟨c, hc, hpc⟩ := h
      rcases List.mem_cons.mp hc with rfl | hc
      · simp [ha] at hpc
      · simpa [List.dropWhile_cons, ha] using ih ⟨c, hc, hpc⟩
    · simp [List.dropWhile_cons, List.takeWhile_cons, ha]

/-- The base name of `root/f` when `f` holds a byte that is not a separator:
the last component of `f`, trailing separators dropped. -/
theorem Base_append_slash (root f : GoString) (h : ∃ c ∈ f, c ≠ '/') :
    Base (root ++ "/".toList ++ f)
      = ((f.reverse.dropWhile IsPathSeparator).takeWhile
          (fun c => !IsPathSeparator c)).reverse := by
  have hg : ∃ c ∈ f.reverse, IsPathSeparator c = false := by
    obtain ⟨c, hc, hne⟩ := h
    exact ⟨c, List.mem_reverse.mpr hc, by simp [IsPathSeparator, hne]⟩
  have hne : root ++ "/".toList ++ f ≠ [] := by simp
  have hrev : (root ++ "/".toList ++ f).reverse = f.reverse ++ '/' :: root.reverse := by
    simp
  have hdrop := dropWhile_append_of_exists (p := IsPathSeparator) f.reverse
    ('/' :: root.reverse) hg
  have hsep : (fun c => !IsPathSeparator c) '/' = false := by decide
  have hlast : ((f.reverse.dropWhile IsPathSeparator).takeWhile
      (fun c => !IsPathSeparator c)).reverse ≠ [] := by
    simpa using takeWhile_not_dropWhile_ne_nil f.reverse hg
  unfold Base
  rw [if_neg hne]
  simp only [List.reverse_reverse]
  rw [hrev, hdrop, takeWhile_append_stop _ _ '/' hsep, if_neg hlast]

theorem mem_Base_append_slash (root f : GoString) (h : ∃ c ∈ f, c ≠ '/') (x : Char)
    (hx : x ∈ Base (root ++ "/".toList ++ f)) : x ∈ f ∧ x ≠ '/' := by
  rw [Base_append_slash root f h, List.mem_reverse] at hx
  obtain ⟨h1, h2⟩ := mem_of_mem_takeWhile _ _ hx
  have h3 := mem_of_mem_dropWhile _ _ h1
  refine ⟨List.mem_reverse.mp h3, ?_⟩
  simpa [IsPathSeparator] using h2

/-- The filename holds a byte other than the separator as soon as the
request path does. -/
theorem filename_exists_ne_slash (r : Request) (h : ∃ c ∈ r.URL.Path, c ≠ '/') :
    ∃ c ∈ filename r, c ≠ '/' := by
  have key : ∀ s : GoString, (∃ c ∈ s, c ≠ '/') → ∃ c ∈ EscapeString s, c ≠ '/' := by
    intro s hs
    induction s with
    | nil => simp at hs
    | cons a as ih =>
      obtain ⟨c, hc, hne⟩ := hs
      rcases List.mem_cons.mp hc with rfl | hc
      · obtain ⟨x, rest, hx, hiff⟩ := htmlEscaper_head c
        refine ⟨x, ?_, fun hxs => hne (hiff.mp hxs)⟩
        simp [EscapeString, hx]
      · obtain ⟨x, hx, hxne⟩ := ih ⟨c, hc, hne⟩
        exact ⟨x, by simp [EscapeString, hx], hxne⟩
  cases hp : r.URL.Path with
  | nil => simp [hp] at h
  | cons a as =>
    by_cases ha : a = '/'
    · subst ha
      have hf : filename r = EscapeString as := filename_slash_cons r.URL as hp
      rw [hf]
      apply key
      obtain ⟨c, hc, hne⟩ := h
      rw [hp] at hc
      rcases List.mem_cons.mp hc with rfl | hc
      · exact absurd rfl hne
      · exact ⟨c, hc, hne⟩
    · have hf : filename r = EscapeString r.URL.Path :=
        filename_of_not_slash r (by simp [hp, ha])
      rw [hf]
      exact key _ h

/-- Every byte of the filename comes from the escaper. -/
theorem mem_filename (r : Request) (x : Char) (h : x ∈ filename r) :
    x ∈ EscapeString r.URL.Path := by
  cases hp : r.URL.Path with
  | nil =>
    have hf : filename r = EscapeString r.URL.Path :=
      filename_of_not_slash r (by simp [hp])
    rw [hf, hp] at h
    exact h
  | cons a as =>
    by_cases ha : a = '/'
    · subst ha
      have hf : filename r = EscapeString as := filename_slash_cons r.URL as hp
      rw [hf] at h
      rw [EscapeString_slash_cons]
      exact List.mem_cons_of_mem _ h
    · have hf : filename r = EscapeString r.URL.Path :=
        filename_of_not_slash r (by simp [hp, ha])
      rw [hf, hp] at h
      exact h


theorem HasPrefix_slash_iff (s : GoString) :
    HasPrefix s "/".toList = true ↔ ∃ rest, s = '/' :: rest := by
  cases s with
  | nil => simp [HasPrefix]
  | cons a as => simp [HasPrefix]

theorem HasPrefix_slash_slash_iff (s : GoString) :
    HasPrefix s "//".toList = true ↔ ∃ rest, s = '/' :: '/' :: rest := by
  cases s with
  | nil => simp [HasPrefix]
  | cons a as =>
    cases as with
    | nil => simp [HasPrefix]
    | cons b bs => simp [HasPrefix]

theorem TrimPrefix_slash_of_head (s : GoString) (h : s.head? ≠ some '/') :
    TrimPrefix s "/".toList = s := by
  cases s with
  | nil => exact TrimPrefix_slash_nil
  | cons a as => exact TrimPrefix_slash_of_ne a as (by simpa using h)

theorem TrimPrefix_slash_cases (s : GoString) :
    TrimPrefix s "/".toList = s ∨ ∃ t, s = '/' :: t ∧ TrimPrefix s "/".toList = t := by
  cases s with
  | nil => exact Or.inl TrimPrefix_slash_nil
  | cons a as =>
    by_cases ha : a = '/'
    · subst ha
      exact Or.inr ⟨as, rfl, TrimPrefix_slash_cons as⟩
    · exact Or.inl (TrimPrefix_slash_of_ne a as ha)

theorem EscapeString_head_slash_iff (s : GoString) :
    (∃ rest, EscapeString s = '/' :: rest) ↔ ∃ rest, s = '/' :: rest := by
  cases s with
  | nil => simp [EscapeString]
  | cons a as =>
    obtain ⟨x, rest, hx, hiff⟩ := htmlEscaper_head a
    simp only [EscapeString, hx, List.cons_append, List.cons.injEq, exists_and_left,
      exists_eq', and_true]
    exact hiff

theorem special_ne_slash (c : Char) (h : htmlSpecial c = true) : c ≠ '/' := by
  rintro rfl
  revert h
  decide

/-- Escaping makes the filename strictly longer than the trimmed raw path as
soon as the path holds a byte the escaper rewrites. -/
theorem filename_length_lt (r : Request) (h : ∃ c ∈ r.URL.Path, htmlSpecial c = true) :
    (TrimPrefix r.URL.Path "/".toList).length < (filename r).length := by
  cases hp : r.URL.Path with
  | nil => simp [hp] at h
  | cons a as =>
    by_cases ha : a = '/'
    · subst ha
      rw [filename_slash_cons r.URL as hp, TrimPrefix_slash_cons]
      apply EscapeString_length_lt
      obtain ⟨c, hc, hsp⟩ := h
      rw [hp] at hc
      rcases List.mem_cons.mp hc with rfl | hc
      · exact absurd rfl (special_ne_slash _ hsp)
      · exact ⟨c, hc, hsp⟩
    · rw [filename_of_not_slash r (by simp [hp, ha]), TrimPrefix_slash_of_ne a as ha, hp]
      apply EscapeString_length_lt
      rw [← hp]
      exact h

/-- Without a byte the escaper rewrites, the filename is the trimmed raw
path. -/
theorem filename_of_not_special (r : Request) (h : ∀ c ∈ r.URL.Path, htmlSpecial c = false) :
    filename r = TrimPrefix r.URL.Path "/".toList := by
  unfold filename urlPath
  rw [EscapeString_of_not_special _ h]

theorem EscapeString_dotdot : EscapeString "../".toList = "../".toList := by decide

/-- A `../` of the request path is carried into the resolved path. -/
theorem filePath_dotdot (cfg : Config) (r : Request) (a b : GoString)
    (h : r.URL.Path = a ++ "../".toList ++ b) :
    filePath cfg r = cfg.Handler.RootDirectory ++ "/".toList ++
        TrimPrefix (EscapeString a ++ "../".toList ++ EscapeString b) "/".toList ∧
      "../".toList <:+: filePath cfg r := by
  have hesc : urlPath r = EscapeString a ++ "../".toList ++ EscapeString b := by
    unfold urlPath
    rw [h, EscapeString_append, EscapeString_append, EscapeString_dotdot]
  have hfp : filePath cfg r = cfg.Handler.RootDirectory ++ "/".toList ++
      TrimPrefix (EscapeString a ++ "../".toList ++ EscapeString b) "/".toList := by
    unfold filePath filename
    rw [hesc]
  refine ⟨hfp, ?_⟩
  rw [hfp]
  rcases TrimPrefix_slash_cases (EscapeString a ++ "../".toList ++ EscapeString b) with
    ht | ⟨t, hs, ht⟩
  · rw [ht]
    exact ⟨cfg.Handler.RootDirectory ++ "/".toList ++ EscapeString a, EscapeString b, by
      simp [List.append_assoc]⟩
  · rw [ht]
    cases hea : EscapeString a with
    | nil =>
      rw [hea] at hs
      have h0 := congrArg List.head? hs
      revert h0
      simp [String.toList]
    | cons x xs =>
      rw [hea] at hs
      have ht2 : t = xs ++ "../".toList ++ EscapeString b := by
        have := List.tail_eq_of_cons_eq hs.symm
        simpa using this
      rw [ht2]
      exact ⟨cfg.Handler.RootDirectory ++ "/".toList ++ xs, EscapeString b, by
        simp [List.append_assoc]⟩


/-! ## The claims -/

/-- C1: when `os.Stat` on the resolved path fails, with whatever error, a
handler started on an unwritten response sends status 404, sets `Content-Type`
to `application/json; charset=utf-8` and does not call `http.ServeFile`, and
the outcome is the same for any two errors; when `os.Stat` succeeds the
handler writes no status and no body itself and calls `http.ServeFile`. -/
theorem handleNoAuth_error_uniform (cfg : Config) (r : Request) (s : World)
    (hs : s.w.status = none) :
    (∀ (fs : FileSystem) (e : StatError), fs (filePath cfg r) = Except.error e →
        (handleNoAuth cfg fs r s).w.status = some 404 ∧
        (handleNoAuth cfg fs r s).w.header "Content-Type".toList
          = some ["application/json; charset=utf-8".toList] ∧
        (handleNoAuth cfg fs r s).serveCalls = s.serveCalls) ∧
    (∀ (fs1 fs2 : FileSystem) (e1 e2 : StatError),
        fs1 (filePath cfg r) = Except.error e1 → fs2 (filePath cfg r) = Except.error e2 →
        handleNoAuth cfg fs1 r s = handleNoAuth cfg fs2 r s) ∧
    (∀ (fs : FileSystem) (i : FileInfo), fs (filePath cfg r) = Except.ok i →
        (handleNoAuth cfg fs r s).w.status = none ∧
        (handleNoAuth cfg fs r s).w.body = s.w.body ∧
        (handleNoAuth cfg fs r s).serveCalls = s.serveCalls ++ [filePath cfg r]) := by
  refine ⟨?_, ?_, ?_⟩
  · intro fs e h
    rw [handleNoAuth_of_error cfg fs r s e h]
    simp only [Header.Set, canonical_content_type, if_true, hs, Option.getD_none]
    exact ⟨trivial, trivial, trivial⟩
  · intro fs1 fs2 e1 e2 h1 h2
    rw [handleNoAuth_of_error cfg fs1 r s e1 h1, handleNoAuth_of_error cfg fs2 r s e2 h2]
  · intro fs i h
    rw [handleNoAuth_of_ok cfg fs r s i h]
    exact ⟨hs, rfl, rfl⟩

/-- Instance of C1 for a missing file, two error kinds, and an existing file. -/
theorem handleNoAuth_error_uniform_witness :
    World.initial.w.status = none ∧
    (handleNoAuth (mkConfig "/srv/files") emptyFS (mkRequest "/missing.txt")
        World.initial).w.status = some 404 ∧
    handleNoAuth (mkConfig "/srv/files") emptyFS (mkRequest "/missing.txt") World.initial
      = handleNoAuth (mkConfig "/srv/files") (fun _ => Except.error StatError.permission)
          (mkRequest "/missing.txt") World.initial ∧
    (handleNoAuth (mkConfig "/srv/files") fullFS (mkRequest "/missing.txt")
        World.initial).serveCalls = ["/srv/files/missing.txt".toList] :=
  ⟨rfl,
    ((handleNoAuth_error_uniform (mkConfig "/srv/files") (mkRequest "/missing.txt")
      World.initial rfl).1 emptyFS StatError.notExist rfl).1,
    (handleNoAuth_error_uniform (mkConfig "/srv/files") (mkRequest "/missing.txt")
      World.initial rfl).2.1 emptyFS (fun _ => Except.error StatError.permission)
      StatError.notExist StatError.permission rfl rfl,
    ((handleNoAuth_error_uniform (mkConfig "/srv/files") (mkRequest "/missing.txt")
      World.initial rfl).2.2 fullFS ⟨0, false⟩ rfl).2.2⟩

/-- C2: when `os.Stat` fails, what the handler writes to the body is the JSON
text `{"Code":"404","Message":"Not Found"}`, the encoding of the error
message whose `Code` is the string `404` and whose `Message` is
`http.StatusText(404)`, that is `Not Found`; `json.Encoder.Encode` ends it,
as it ends every value, with a newline, which is insignificant whitespace
of a JSON text. -/
theorem handleNoAuth_error_body (cfg : Config) (fs : FileSystem) (r : Request) (s : World)
    (e : StatError) (h : fs (filePath cfg r) = Except.error e) :
    (handleNoAuth cfg fs r s).w.body
        = s.w.body ++ Marshal ⟨"404".toList, StatusText 404⟩ ++ "\n".toList ∧
      Marshal ⟨"404".toList, StatusText 404⟩
        = "\x7b\"Code\":\"404\",\"Message\":\"Not Found\"\x7d".toList ∧
      StatusText 404 = "Not Found".toList := by
  rw [handleNoAuth_of_error cfg fs r s e h]
  refine ⟨?_, by decide, by decide⟩
  simp [Encode]

/-- Instance of the body theorem for a missing file. -/
theorem handleNoAuth_error_body_witness :
    emptyFS (filePath (mkConfig "/srv/files") (mkRequest "/missing.txt"))
        = Except.error StatError.notExist ∧
    (handleNoAuth (mkConfig "/srv/files") emptyFS (mkRequest "/missing.txt")
        World.initial).w.body
      = World.initial.w.body ++ Marshal ⟨"404".toList, StatusText 404⟩ ++ "\n".toList :=
  ⟨rfl, (handleNoAuth_error_body (mkConfig "/srv/files") emptyFS (mkRequest "/missing.txt")
    World.initial StatError.notExist rfl).1⟩

/-- C3: when `os.Stat` succeeds, the handler sets `Content-Disposition` to
`attachment; filename='B'` with `B` the `filepath.Base` of the resolved path,
and that resolved path is the file handed to `http.ServeFile`. -/
theorem handleNoAuth_content_disposition (cfg : Config) (fs : FileSystem) (r : Request)
    (s : World) (i : FileInfo) (h : fs (filePath cfg r) = Except.ok i) :
    (handleNoAuth cfg fs r s).w.header "Content-Disposition".toList
        = some ["attachment; filename='".toList ++
            Base (cfg.Handler.RootDirectory ++ "/".toList ++
              TrimPrefix (EscapeString r.URL.Path) "/".toList) ++ "'".toList] ∧
      (handleNoAuth cfg fs r s).serveCalls
        = s.serveCalls ++ [cfg.Handler.RootDirectory ++ "/".toList ++
            TrimPrefix (EscapeString r.URL.Path) "/".toList] := by
  rw [handleNoAuth_of_ok cfg fs r s i h]
  refine ⟨?_, rfl⟩
  have h1 : "Content-Disposition".toList ≠ "Content-Control".toList := by decide
  have h2 : "Content-Disposition".toList ≠ "Expires".toList := by decide
  simp only [Header.Set, canonical_content_control, canonical_expires,
    canonical_content_disposition, if_neg h1, if_neg h2, if_true, Sprintf_filename]
  rfl

/-- Instance of C3 for `/docs/report.pdf`. -/
theorem handleNoAuth_content_disposition_witness :
    fullFS (filePath (mkConfig "/srv/files") (mkRequest "/docs/report.pdf"))
        = Except.ok ⟨0, false⟩ ∧
    (handleNoAuth (mkConfig "/srv/files") fullFS (mkRequest "/docs/report.pdf")
        World.initial).w.header "Content-Disposition".toList
      = some ["attachment; filename='report.pdf'".toList] :=
  ⟨rfl, (handleNoAuth_content_disposition (mkConfig "/srv/files") fullFS
    (mkRequest "/docs/report.pdf") World.initial ⟨0, false⟩ rfl).1⟩

/-- C4: started with an empty header map, the handler leaves `Expires` set to
`0` and `Content-Control` set to
`private, no-transform, no-store, must-revalidate` exactly when `os.Stat`
succeeds; when it fails none of `Expires`, `Content-Control` and
`Content-Disposition` is set, and when it succeeds `Content-Type` is not
set. -/
theorem handleNoAuth_cache_headers (cfg : Config) (fs : FileSystem) (r : Request)
    (s : World) (hs : s.w.header = Header.empty) :
    (((handleNoAuth cfg fs r s).w.header "Expires".toList = some ["0".toList] ∧
        (handleNoAuth cfg fs r s).w.header "Content-Control".toList
          = some ["private, no-transform, no-store, must-revalidate".toList]) ↔
      ∃ i, fs (filePath cfg r) = Except.ok i) ∧
    ((∃ e, fs (filePath cfg r) = Except.error e) →
      (handleNoAuth cfg fs r s).w.header "Expires".toList = none ∧
      (handleNoAuth cfg fs r s).w.header "Content-Control".toList = none ∧
      (handleNoAuth cfg fs r s).w.header "Content-Disposition".toList = none) ∧
    ((∃ i, fs (filePath cfg r) = Except.ok i) →
      (handleNoAuth cfg fs r s).w.header "Content-Type".toList = none) := by
  have h1 : "Expires".toList ≠ "Content-Type".toList := by decide
  have h2 : "Content-Control".toList ≠ "Content-Type".toList := by decide
  have h3 : "Content-Disposition".toList ≠ "Content-Type".toList := by decide
  have h4 : "Expires".toList ≠ "Content-Control".toList := by decide
  have h5 : "Content-Type".toList ≠ "Content-Control".toList := by decide
  have h6 : "Content-Type".toList ≠ "Expires".toList := by decide
  have h7 : "Content-Type".toList ≠ "Content-Disposition".toList := by decide
  cases hfs : fs (filePath cfg r) with
  | error e =>
    rw [handleNoAuth_of_error cfg fs r s e hfs]
    simp only [Header.Set, canonical_content_type, if_neg h1, if_neg h2, if_neg h3, hs,
      Header.empty]
    simp
  | ok i =>
    rw [handleNoAuth_of_ok cfg fs r s i hfs]
    simp only [Header.Set, canonical_content_control, canonical_expires,
      canonical_content_disposition, if_neg h4, if_neg h5, if_neg h6, if_neg h7, if_true, hs,
      Header.empty]
    simp

/-- Instance of C4 on both branches, from the initial world. -/
theorem handleNoAuth_cache_headers_witness :
    World.initial.w.header = Header.empty ∧
    (handleNoAuth (mkConfig "/srv/files") fullFS (mkRequest "/a.txt")
        World.initial).w.header "Expires".toList = some ["0".toList] ∧
    (handleNoAuth (mkConfig "/srv/files") emptyFS (mkRequest "/a.txt")
        World.initial).w.header "Expires".toList = none :=
  ⟨rfl,
    ((handleNoAuth_cache_headers (mkConfig "/srv/files") fullFS (mkRequest "/a.txt")
      World.initial rfl).1.mpr ⟨⟨0, false⟩, rfl⟩).1,
    ((handleNoAuth_cache_headers (mkConfig "/srv/files") emptyFS (mkRequest "/a.txt")
      World.initial rfl).2.1 ⟨StatError.notExist, rfl⟩).1⟩

/-- C5: the one path the handler passes to `os.Stat`, and to `http.ServeFile`
when the check succeeds, is the root directory, a `/`, and the HTML-escaped
request path with one leading `/` trimmed; for a request path that begins
with `/` this is the root directory followed by the escaped path. -/
theorem handleNoAuth_resolved_path (cfg : Config) (fs : FileSystem) (r : Request)
    (s : World) :
    (handleNoAuth cfg fs r s).statCalls
        = s.statCalls ++ [cfg.Handler.RootDirectory ++ "/".toList ++
            TrimPrefix (EscapeString r.URL.Path) "/".toList] ∧
      (∀ i, fs (cfg.Handler.RootDirectory ++ "/".toList ++
            TrimPrefix (EscapeString r.URL.Path) "/".toList) = Except.ok i →
        (handleNoAuth cfg fs r s).serveCalls
          = s.serveCalls ++ [cfg.Handler.RootDirectory ++ "/".toList ++
              TrimPrefix (EscapeString r.URL.Path) "/".toList]) ∧
      (HasPrefix r.URL.Path "/".toList = true →
        (handleNoAuth cfg fs r s).statCalls
          = s.statCalls ++ [cfg.Handler.RootDirectory ++ EscapeString r.URL.Path]) := by
  have hstat : (handleNoAuth cfg fs r s).statCalls = s.statCalls ++ [filePath cfg r] := by
    cases hfs : fs (filePath cfg r) with
    | error e => rw [handleNoAuth_of_error cfg fs r s e hfs]
    | ok i => rw [handleNoAuth_of_ok cfg fs r s i hfs]
  refine ⟨hstat, ?_, ?_⟩
  · intro i hi
    rw [handleNoAuth_of_ok cfg fs r s i hi]
    rfl
  · intro hp
    obtain ⟨rest, hrest⟩ := (HasPrefix_slash_iff _).mp hp
    rw [hstat]
    have hf : filename r = EscapeString rest := filename_slash_cons r.URL rest hrest
    unfold filePath
    rw [hf, hrest, EscapeString_slash_cons]
    simp

/-- Instance of C5 for `/a&b.txt` under `/srv/files`. -/
theorem handleNoAuth_resolved_path_witness :
    HasPrefix (mkRequest "/a&b.txt").URL.Path "/".toList = true ∧
    (handleNoAuth (mkConfig "/srv/files") fullFS (mkRequest "/a&b.txt")
        World.initial).statCalls = ["/srv/files/a&amp;b.txt".toList] ∧
    (handleNoAuth (mkConfig "/srv/files") fullFS (mkRequest "/a&b.txt")
        World.initial).serveCalls = ["/srv/files/a&amp;b.txt".toList] :=
  ⟨rfl,
    (handleNoAuth_resolved_path (mkConfig "/srv/files") fullFS (mkRequest "/a&b.txt")
      World.initial).2.2 rfl,
    (handleNoAuth_resolved_path (mkConfig "/srv/files") fullFS (mkRequest "/a&b.txt")
      World.initial).2.1 ⟨0, false⟩ rfl⟩


/-- C6, as the code has it: `strings.TrimPrefix` removes one separator only,
so the filename begins with `/` exactly when the request path begins with
`//`; for every other request path the filename is relative. -/
theorem filename_absolute_iff (r : Request) :
    HasPrefix (filename r) "/".toList = true ↔ HasPrefix r.URL.Path "//".toList = true := by
  rw [HasPrefix_slash_iff, HasPrefix_slash_slash_iff]
  cases hp : r.URL.Path with
  | nil =>
    rw [filename_of_not_slash r (by simp [hp]), hp]
    simp [EscapeString]
  | cons a as =>
    by_cases ha : a = '/'
    · subst ha
      rw [filename_slash_cons r.URL as hp, EscapeString_head_slash_iff]
      simp
    · rw [filename_of_not_slash r (by simp [hp, ha]), EscapeString_head_slash_iff, hp]
      simp [ha]

/-- C6 as stated fails: for the request path `//etc/passwd` the filename is
`/etc/passwd`, which begins with `/`. -/
theorem filename_double_slash :
    filename (mkRequest "//etc/passwd") = "/etc/passwd".toList ∧
      HasPrefix (filename (mkRequest "//etc/passwd")) "/".toList = true := by
  decide

/-- C7: when `os.Stat` fails the handler passes exactly one message to
`log.Println`, the text `NOT FOUND (` followed by the escaped request path and
`)`; when `os.Stat` succeeds it logs nothing. -/
theorem handleNoAuth_log (cfg : Config) (fs : FileSystem) (r : Request) (s : World) :
    (∀ e, fs (filePath cfg r) = Except.error e →
        (handleNoAuth cfg fs r s).logLines
          = s.logLines ++ ["NOT FOUND (".toList ++ EscapeString r.URL.Path ++ ")".toList]) ∧
      (∀ i, fs (filePath cfg r) = Except.ok i →
        (handleNoAuth cfg fs r s).logLines = s.logLines) := by
  refine ⟨?_, ?_⟩
  · intro e h
    rw [handleNoAuth_of_error cfg fs r s e h]
    rfl
  · intro i h
    rw [handleNoAuth_of_ok cfg fs r s i h]

/-- Instance of C7 on both branches. -/
theorem handleNoAuth_log_witness :
    (handleNoAuth (mkConfig "/srv/files") emptyFS (mkRequest "/a<b>.txt")
        World.initial).logLines = ["NOT FOUND (/a&lt;b&gt;.txt)".toList] ∧
    (handleNoAuth (mkConfig "/srv/files") fullFS (mkRequest "/a<b>.txt")
        World.initial).logLines = [] :=
  ⟨(handleNoAuth_log (mkConfig "/srv/files") emptyFS (mkRequest "/a<b>.txt")
      World.initial).1 StatError.notExist rfl,
    (handleNoAuth_log (mkConfig "/srv/files") fullFS (mkRequest "/a<b>.txt")
      World.initial).2 ⟨0, false⟩ rfl⟩

/-- C8, as the code has it: the handler's own statements neither normalize
nor check `..`.  A `../` of the request path goes through escaping unchanged
and is still present in the path the handler stats and, when the check
succeeds, hands to `http.ServeFile`.  With root `/srv/files` and request path
`/../../etc/passwd` that path is `/srv/files/../../etc/passwd`, which denotes
`/etc/passwd`, outside the root.  `http.ServeFile` itself then refuses every
request whose path has a `..` element: it answers status 400 with the text
`invalid URL path` and enters no file transfer; a request path without such
an element goes on to the file transfer. -/
theorem handleNoAuth_traversal :
    (∀ (cfg : Config) (fs : FileSystem) (r : Request) (s : World) (a b : GoString),
        r.URL.Path = a ++ "../".toList ++ b →
        ∃ p, p = cfg.Handler.RootDirectory ++ "/".toList ++
              TrimPrefix (EscapeString a ++ "../".toList ++ EscapeString b) "/".toList ∧
          "../".toList <:+: p ∧
          (handleNoAuth cfg fs r s).statCalls = s.statCalls ++ [p] ∧
          (∀ i, fs p = Except.ok i →
            (handleNoAuth cfg fs r s).serveCalls = s.serveCalls ++ [p])) ∧
    (∀ (cfg : Config) (fs : FileSystem) (r : Request) (s : World) (i : FileInfo),
        fs (filePath cfg r) = Except.ok i →
        (containsDotDot r.URL.Path = true →
          ∃ w, (handleNoAuth cfg fs r s).serveResults
                = s.serveResults ++ [ServeResult.rejected w] ∧
            w.body = s.w.body ++ "invalid URL path\n".toList ∧
            (s.w.status = none → w.status = some 400)) ∧
        (containsDotDot r.URL.Path = false →
          (handleNoAuth cfg fs r s).serveResults
            = s.serveResults ++ [ServeResult.transfer (Split (filePath cfg r)).1
                (Split (filePath cfg r)).2])) ∧
    (location "/srv/files".toList = ["srv".toList, "files".toList] ∧
      location "/srv/files/../../etc/passwd".toList = ["etc".toList, "passwd".toList] ∧
      within "/srv/files".toList "/srv/files/../../etc/passwd".toList = false ∧
      containsDotDot "/../../etc/passwd".toList = true ∧
      ∀ (fs : FileSystem) (s : World) (i : FileInfo),
        fs "/srv/files/../../etc/passwd".toList = Except.ok i →
        (handleNoAuth (mkConfig "/srv/files") fs (mkRequest "/../../etc/passwd") s).statCalls
            = s.statCalls ++ ["/srv/files/../../etc/passwd".toList] ∧
          (handleNoAuth (mkConfig "/srv/files") fs (mkRequest "/../../etc/passwd") s).serveCalls
            = s.serveCalls ++ ["/srv/files/../../etc/passwd".toList] ∧
          ∃ w, (handleNoAuth (mkConfig "/srv/files") fs (mkRequest "/../../etc/passwd")
                  s).serveResults = s.serveResults ++ [ServeResult.rejected w] ∧
            w.body = s.w.body ++ "invalid URL path\n".toList ∧
            (s.w.status = none → w.status = some 400)) := by
  have hrej : ∀ (cfg : Config) (fs : FileSystem) (r : Request) (s : World) (i : FileInfo),
      fs (filePath cfg r) = Except.ok i → containsDotDot r.URL.Path = true →
      ∃ w, (handleNoAuth cfg fs r s).serveResults
            = s.serveResults ++ [ServeResult.rejected w] ∧
        w.body = s.w.body ++ "invalid URL path\n".toList ∧
        (s.w.status = none → w.status = some 400) := by
    intro cfg fs r s i hi hdd
    rw [handleNoAuth_of_ok cfg fs r s i hi]
    simp only [ServeFile, hdd, if_true]
    refine ⟨_, rfl, ?_, ?_⟩
    · rw [serveError_body, List.append_assoc]
      rfl
    · intro hst
      exact serveError_status _ _ _ hst
  refine ⟨?_, ?_, by decide, by decide, by decide, by decide, ?_⟩
  · intro cfg fs r s a b h
    obtain ⟨hfp, hin⟩ := filePath_dotdot cfg r a b h
    refine ⟨filePath cfg r, hfp, hin, ?_, ?_⟩
    · cases hfs : fs (filePath cfg r) with
      | error e => rw [handleNoAuth_of_error cfg fs r s e hfs]
      | ok i => rw [handleNoAuth_of_ok cfg fs r s i hfs]
    · intro i hi
      rw [handleNoAuth_of_ok cfg fs r s i hi]
  · intro cfg fs r s i hi
    refine ⟨hrej cfg fs r s i hi, ?_⟩
    intro hdd
    rw [handleNoAuth_of_ok cfg fs r s i hi]
    simp [ServeFile, hdd]
  · intro fs s i hi
    have hp : filePath (mkConfig "/srv/files") (mkRequest "/../../etc/passwd")
        = "/srv/files/../../etc/passwd".toList := by decide
    rw [← hp] at hi
    refine ⟨?_, ?_, hrej _ fs _ s i hi (by decide)⟩
    · rw [handleNoAuth_of_ok _ fs _ s i hi, hp]
    · rw [handleNoAuth_of_ok _ fs _ s i hi, hp]

/-- Instance of C8 for `/../../etc/passwd` and for `/docs/report.pdf` under
`/srv/files`. -/
theorem handleNoAuth_traversal_witness :
    (mkRequest "/../../etc/passwd").URL.Path
        = "/".toList ++ "../".toList ++ "../etc/passwd".toList ∧
    fullFS "/srv/files/../../etc/passwd".toList = Except.ok ⟨0, false⟩ ∧
    (∃ p, "../".toList <:+: p ∧
      (handleNoAuth (mkConfig "/srv/files") fullFS (mkRequest "/../../etc/passwd")
        World.initial).statCalls = [p]) ∧
    (handleNoAuth (mkConfig "/srv/files") fullFS (mkRequest "/../../etc/passwd")
        World.initial).serveCalls = ["/srv/files/../../etc/passwd".toList] ∧
    containsDotDot (mkRequest "/docs/report.pdf").URL.Path = false ∧
    (handleNoAuth (mkConfig "/srv/files") fullFS (mkRequest "/docs/report.pdf")
        World.initial).serveResults
      = [ServeResult.transfer "/srv/files/docs/".toList "report.pdf".toList] :=
  ⟨rfl, rfl,
    (handleNoAuth_traversal.1 (mkConfig "/srv/files") fullFS (mkRequest "/../../etc/passwd")
      World.initial "/".toList "../etc/passwd".toList rfl).elim
      (fun p hp => ⟨p, hp.2.1, hp.2.2.1⟩),
    (handleNoAuth_traversal.2.2.2.2.2.2 fullFS World.initial ⟨0, false⟩ rfl).2.1,
    by decide,
    (handleNoAuth_traversal.2.1 (mkConfig "/srv/files") fullFS (mkRequest "/docs/report.pdf")
      World.initial ⟨0, false⟩ rfl).2 (by decide)⟩

/-- C8 as stated fails: with root `/srv/files`, request path
`/../../etc/passwd` and a file system on which `os.Stat` succeeds, the request
is refused because of its `..` elements: the one call of `http.ServeFile`
ends in status 400 with the body `invalid URL path` and no file transfer. -/
theorem handleNoAuth_traversal_rejected :
    containsDotDot (mkRequest "/../../etc/passwd").URL.Path = true ∧
    ∃ w, (handleNoAuth (mkConfig "/srv/files") fullFS (mkRequest "/../../etc/passwd")
          World.initial).serveResults = [ServeResult.rejected w] ∧
      w.status = some 400 ∧
      w.body = "invalid URL path\n".toList ∧
      w.header "Content-Type".toList = some ["text/plain; charset=utf-8".toList] :=
  ⟨by decide, ⟨_, rfl, rfl, rfl, by decide⟩⟩

/-- C9: when the request path holds a byte other than `/`, the base name of
the resolved path holds no apostrophe, no double quote, no `<`, no `>` and
no `/`, whatever the root directory; it is the text the handler puts between
the quotes of `filename='...'` in `Content-Disposition`. -/
theorem handleNoAuth_filename_quote_safe (cfg : Config) (r : Request)
    (h : ∃ c ∈ r.URL.Path, c ≠ '/') :
    (∀ x ∈ Base (filePath cfg r),
        x ≠ apostrophe ∧ x ≠ dquote ∧ x ≠ '<' ∧ x ≠ '>' ∧ x ≠ '/') ∧
      (∀ (fs : FileSystem) (s : World) (i : FileInfo), fs (filePath cfg r) = Except.ok i →
        (handleNoAuth cfg fs r s).w.header "Content-Disposition".toList
          = some ["attachment; filename='".toList ++ Base (filePath cfg r) ++ "'".toList]) := by
  refine ⟨?_, ?_⟩
  · intro x hx
    have hf := filename_exists_ne_slash r h
    obtain ⟨hmem, hne⟩ := mem_Base_append_slash cfg.Handler.RootDirectory (filename r) hf x hx
    obtain ⟨c, _, hxc⟩ := mem_EscapeString _ x (mem_filename r x hmem)
    obtain ⟨a1, a2, a3, a4, _⟩ := mem_htmlEscaper c x hxc
    exact ⟨a1, a2, a3, a4, hne⟩
  · intro fs s i hi
    rw [handleNoAuth_of_ok cfg fs r s i hi]
    have h1 : "Content-Disposition".toList ≠ "Content-Control".toList := by decide
    have h2 : "Content-Disposition".toList ≠ "Expires".toList := by decide
    simp only [Header.Set, canonical_content_control, canonical_expires,
      canonical_content_disposition, if_neg h1, if_neg h2, if_true, Sprintf_filename]
    rfl

/-- Instance of C9 with quotes in both the root directory and the request path. -/
theorem handleNoAuth_filename_quote_safe_witness :
    (∃ c ∈ (mkRequest "/x/it's.txt").URL.Path, c ≠ '/') ∧
    (∀ x ∈ Base (filePath (mkConfig "/srv/o'brien") (mkRequest "/x/it's.txt")),
        x ≠ apostrophe ∧ x ≠ dquote ∧ x ≠ '<' ∧ x ≠ '>' ∧ x ≠ '/') ∧
    Base (filePath (mkConfig "/srv/o'brien") (mkRequest "/x/it's.txt"))
      = "it&#39;s.txt".toList :=
  ⟨⟨'x', by decide, by decide⟩,
    (handleNoAuth_filename_quote_safe (mkConfig "/srv/o'brien") (mkRequest "/x/it's.txt")
      ⟨'x', by decide, by decide⟩).1,
    by decide⟩

/-- C10: for a request path without any of `&`, `<`, `>`, apostrophe and
double quote the handler stats the root directory, a `/`, and the raw path
with one leading `/` trimmed; for a request path with one of these bytes the
path it stats is strictly longer than that one, hence different from it. -/
theorem handleNoAuth_escape_changes_lookup (cfg : Config) (fs : FileSystem) (r : Request)
    (s : World) :
    ((∀ c ∈ r.URL.Path, htmlSpecial c = false) →
        (handleNoAuth cfg fs r s).statCalls
          = s.statCalls ++ [cfg.Handler.RootDirectory ++ "/".toList ++
              TrimPrefix r.URL.Path "/".toList]) ∧
      ((∃ c ∈ r.URL.Path, htmlSpecial c = true) →
        ∃ p, (handleNoAuth cfg fs r s).statCalls = s.statCalls ++ [p] ∧
          (cfg.Handler.RootDirectory ++ "/".toList ++
              TrimPrefix r.URL.Path "/".toList).length < p.length ∧
          p ≠ cfg.Handler.RootDirectory ++ "/".toList ++ TrimPrefix r.URL.Path "/".toList) := by
  have hstat : (handleNoAuth cfg fs r s).statCalls = s.statCalls ++ [filePath cfg r] := by
    cases hfs : fs (filePath cfg r) with
    | error e => rw [handleNoAuth_of_error cfg fs r s e hfs]
    | ok i => rw [handleNoAuth_of_ok cfg fs r s i hfs]
  refine ⟨?_, ?_⟩
  · intro h
    rw [hstat]
    unfold filePath
    rw [filename_of_not_special r h]
  · intro h
    have hlen := filename_length_lt r h
    have hlt : (cfg.Handler.RootDirectory ++ "/".toList ++
        TrimPrefix r.URL.Path "/".toList).length < (filePath cfg r).length := by
      unfold filePath
      simp only [List.length_append]
      omega
    refine ⟨filePath cfg r, hstat, hlt, ?_⟩
    intro heq
    rw [heq] at hlt
    exact Nat.lt_irrefl _ hlt

/-- Instance of C10 for `/plain.txt` and `/a&b.txt`. -/
theorem handleNoAuth_escape_changes_lookup_witness :
    (∀ c ∈ (mkRequest "/plain.txt").URL.Path, htmlSpecial c = false) ∧
    (handleNoAuth (mkConfig "/srv/files") emptyFS (mkRequest "/plain.txt")
        World.initial).statCalls = ["/srv/files/plain.txt".toList] ∧
    (∃ c ∈ (mkRequest "/a&b.txt").URL.Path, htmlSpecial c = true) ∧
    ∃ p, (handleNoAuth (mkConfig "/srv/files") emptyFS (mkRequest "/a&b.txt")
        World.initial).statCalls = [p] ∧ p ≠ "/srv/files/a&b.txt".toList :=
  ⟨by decide,
    (handleNoAuth_escape_changes_lookup (mkConfig "/srv/files") emptyFS
      (mkRequest "/plain.txt") World.initial).1 (by decide),
    ⟨'&', by decide, by decide⟩,
    ((handleNoAuth_escape_changes_lookup (mkConfig "/srv/files") emptyFS
      (mkRequest "/a&b.txt") World.initial).2 ⟨'&', by decide, by decide⟩).elim
      (fun p hp => ⟨p, hp.1, hp.2.2⟩)⟩

end FileServer
